import Mathlib

/-!
# ttyrst-watchdog: the log record header `logrecord.h`

A shallow embedding of the declarations of `ttyrst_watchdog/logrecord.h`:
the event codes, the `LogRecord` struct, the record stride, the EEPROM
capacity expression, the write cursor and the empty record.

Machine integers are natural numbers; a store into an unsigned field of
`w` bits keeps the value modulo `2 ^ w`.  Two things the header relies on
are declared outside of it and appear as parameters: the width of `time_t`
(from `Time.h`) and the struct layout chosen by the compiler for
`sizeof(LogRecord)`.
-/

namespace TtyrstWatchdog

/-! ## Event codes -/

/-- Event code of an unused slot: `#define LOG_EMPTY 0`. -/
def LOG_EMPTY : Nat := 0

/-- Event code written at start-up: `#define LOG_BOOT 1`. -/
def LOG_BOOT : Nat := 1

/-- Event code written when the host is reset: `#define LOG_RESET 2`. -/
def LOG_RESET : Nat := 2

/-! ## The record -/

/-- The struct `LogRecord`: a `time_t` timestamp followed by an
`unsigned char` event code.  Fields hold the numeric value of the C field. -/
structure LogRecord where
  logTime : Nat
  logEvent : Nat
  deriving DecidableEq, Repr

/-- Value kept by an unsigned field of `w` bits when `x` is stored in it. -/
def wrapU (w x : Nat) : Nat := x % 2 ^ w

/-- Aggregate initialisation `LogRecord r = {t, e}` (equally the two field
assignments): each value is converted to the type of its field, `time_t`
being an unsigned integer of `timeBits` bits (declared in `Time.h`, so its
width is a parameter) and `unsigned char` a byte. -/
def LogRecord.make (timeBits t e : Nat) : LogRecord :=
  { logTime := wrapU timeBits t, logEvent := wrapU 8 e }

/-! ## Record stride and capacity -/

/-- The constant `gLogRecordLen = sizeof(LogRecord)`: the bytes of `logTime`
(parameter `timeBytes`, the size of `time_t` from `Time.h`), one byte for
`logEvent`, and whatever padding the compiler adds to the struct (parameter
`pad`).  The header fixes neither parameter. -/
def gLogRecordLen (timeBytes pad : Nat) : Nat := timeBytes + 1 + pad

/-- The expression `S / L * L` of the capacity constant, over the integers,
with the storage size `S` in place of the literal `1024`. -/
def eepromSizeOf (S L : Nat) : Nat := S / L * L

/-- The constant `gEepromSize = 1024 / gLogRecordLen * gLogRecordLen`, as a
function of the value `recordLen` of `gLogRecordLen`. -/
def gEepromSize (recordLen : Nat) : Nat := 1024 / recordLen * recordLen

/-- The initialiser of `gEepromSize` evaluated as the compiler does, in
unsigned arithmetic of `w` bits: the literal is converted to `unsigned int`,
the quotient and the product are reduced modulo `2 ^ w`.  Division by zero
has no value. -/
def gEepromSizeU (w recordLen : Nat) : Option Nat :=
  if recordLen = 0 then none
  else
    let q := wrapU w (wrapU w 1024 / recordLen)
    some (wrapU w (q * recordLen))

/-! ## Mutable globals -/

/-- The two mutable globals of the header: the write cursor `gLogPos` and the
record `gEmptyRecord`. -/
structure Globals where
  gLogPos : Nat
  gEmptyRecord : LogRecord
  deriving DecidableEq, Repr

/-- The globals after static initialisation: `gLogPos = 0` and
`gEmptyRecord = {0, 0}`. -/
def Globals.init : Globals :=
  { gLogPos := 0, gEmptyRecord := { logTime := 0, logEvent := 0 } }

/-! ## Helper lemmas -/

theorem wrapU_of_lt {w x : Nat} (h : x < 2 ^ w) : wrapU w x = x :=
  Nat.mod_eq_of_lt h

theorem eepromSizeOf_le (S L : Nat) : eepromSizeOf S L ≤ S :=
  Nat.div_mul_le_self S L

theorem eepromSizeOf_mod (S L : Nat) : eepromSizeOf S L % L = 0 :=
  Nat.mul_mod_left (S / L) L

theorem tail_lt (S L : Nat) (hL : 0 < L) : S - eepromSizeOf S L < L := by
  unfold eepromSizeOf
  have h1 : L * (S / L) + S % L = S := Nat.div_add_mod S L
  have h2 : S % L < L := Nat.mod_lt S hL
  have h3 : S / L * L = L * (S / L) := Nat.mul_comm _ _
  omega

theorem pow_sixteen_le {w : Nat} (hw : 16 ≤ w) : 65536 ≤ 2 ^ w := by
  have h : 2 ^ 16 ≤ 2 ^ w := Nat.pow_le_pow_right (by decide) hw
  simpa using h

theorem gEepromSizeU_exact {w L : Nat} (hw : 16 ≤ w) (hL : 1 ≤ L) :
    gEepromSizeU w L = some (gEepromSize L) := by
  have hp : 65536 ≤ 2 ^ w := pow_sixteen_le hw
  have hq : 1024 / L ≤ 1024 := Nat.div_le_self 1024 L
  have hm : 1024 / L * L ≤ 1024 := Nat.div_mul_le_self 1024 L
  have hne : L ≠ 0 := by omega
  have e1 : wrapU w 1024 = 1024 := wrapU_of_lt (by omega)
  have e2 : wrapU w (1024 / L) = 1024 / L := wrapU_of_lt (by omega)
  have e3 : wrapU w (1024 / L * L) = 1024 / L * L := wrapU_of_lt (by omega)
  simp only [gEepromSizeU, if_neg hne, e1, e2, e3, gEepromSize]

/-! ## Capacity -/

/-- C1: for every storage size `S` and every record length `L > 0` the
capacity expression `S / L * L` is divisible by `L`; in particular the
program's `gEepromSize` leaves remainder zero modulo the record stride. -/
theorem capacity_multiple_of_stride (S L : Nat) (hL : 0 < L) :
    eepromSizeOf S L % L = 0 ∧ L ∣ eepromSizeOf S L ∧
      gEepromSize L % L = 0 ∧ gEepromSizeU 16 L = some (gEepromSize L) := by
  refine ⟨eepromSizeOf_mod S L, ⟨S / L, Nat.mul_comm _ _⟩, ?_, ?_⟩
  · exact eepromSizeOf_mod 1024 L
  · exact gEepromSizeU_exact (le_refl 16) hL

theorem capacity_multiple_of_stride_witness :
    0 < 5 ∧ (eepromSizeOf 1024 5 % 5 = 0 ∧ 5 ∣ eepromSizeOf 1024 5 ∧
      gEepromSize 5 % 5 = 0 ∧ gEepromSizeU 16 5 = some (gEepromSize 5)) :=
  ⟨by decide, capacity_multiple_of_stride 1024 5 (by decide)⟩

/-- C2: for every record length `L ≥ 1`, `gEepromSize` is at most 1024, the
unused tail `1024 - gEepromSize` is shorter than one record, and
`gEepromSize` is the largest multiple of `L` not exceeding 1024. -/
theorem capacity_truncates_storage (L : Nat) (hL : 1 ≤ L) :
    gEepromSize L ≤ 1024 ∧ 1024 - gEepromSize L < L ∧ L ∣ gEepromSize L ∧
      (∀ m, L ∣ m → m ≤ 1024 → m ≤ gEepromSize L) ∧ 1024 < gEepromSize L + L := by
  have hle : gEepromSize L ≤ 1024 := eepromSizeOf_le 1024 L
  have htail : 1024 - gEepromSize L < L := tail_lt 1024 L hL
  refine ⟨hle, htail, ⟨1024 / L, Nat.mul_comm _ _⟩, ?_, by omega⟩
  rintro m ⟨k, rfl⟩ hm
  have hk : k ≤ 1024 / L := (Nat.le_div_iff_mul_le hL).2 (by rw [Nat.mul_comm]; exact hm)
  calc L * k = k * L := Nat.mul_comm _ _
    _ ≤ 1024 / L * L := Nat.mul_le_mul_right L hk

theorem capacity_truncates_storage_witness :
    1 ≤ 5 ∧ (gEepromSize 5 ≤ 1024 ∧ 1024 - gEepromSize 5 < 5 ∧ 5 ∣ gEepromSize 5 ∧
      (∀ m, 5 ∣ m → m ≤ 1024 → m ≤ gEepromSize 5) ∧ 1024 < gEepromSize 5 + 5) :=
  ⟨by decide, capacity_truncates_storage 5 (by decide)⟩

/-- C3: with a record stride of 5 bytes the capacity is 1020 bytes, which is
204 whole records, and 4 bytes of the 1024 stay unused; the 16-bit unsigned
evaluation gives the same 1020. -/
theorem capacity_stride_five :
    gEepromSize 5 = 1020 ∧ gEepromSize 5 / 5 = 204 ∧ gEepromSize 5 % 5 = 0 ∧
      1024 - gEepromSize 5 = 4 ∧ gEepromSizeU 16 5 = some 1020 := by
  decide

/-- C9: the write cursor starts at 0, which is a multiple of the record
length and, for every record length `L` with `1 ≤ L ≤ 1024`, lies strictly
below the (non-zero) capacity with a whole record fitting at it. -/
theorem initial_cursor_valid_slot (L : Nat) (h1 : 1 ≤ L) (h2 : L ≤ 1024) :
    Globals.init.gLogPos = 0 ∧ Globals.init.gLogPos % L = 0 ∧ 0 < gEepromSize L ∧
      Globals.init.gLogPos < gEepromSize L ∧ Globals.init.gLogPos + L ≤ gEepromSize L := by
  have hq : 0 < 1024 / L := Nat.div_pos h2 h1
  have hfit : L ≤ 1024 / L * L := Nat.le_mul_of_pos_left L hq
  have hpos : 0 < gEepromSize L := Nat.lt_of_lt_of_le h1 hfit
  refine ⟨rfl, Nat.zero_mod L, hpos, hpos, ?_⟩
  show 0 + L ≤ 1024 / L * L
  omega

theorem initial_cursor_valid_slot_witness :
    (1 ≤ 5 ∧ 5 ≤ 1024) ∧ (Globals.init.gLogPos = 0 ∧ Globals.init.gLogPos % 5 = 0 ∧
      0 < gEepromSize 5 ∧ Globals.init.gLogPos < gEepromSize 5 ∧
      Globals.init.gLogPos + 5 ≤ gEepromSize 5) :=
  ⟨by decide, initial_cursor_valid_slot 5 (by decide) (by decide)⟩

/-- C10: the divisor `gLogRecordLen` is never zero, being at least the two
fields of a record, and for every record length `L ≥ 1` the converted
literal, the quotient and the product of `1024 / L * L` stay at most 1024, so
the evaluation modulo `2 ^ 16` is defined and equals the exact value. -/
theorem capacity_no_wraparound (timeBytes pad L : Nat) (hL : 1 ≤ L) :
    gLogRecordLen timeBytes pad ≠ 0 ∧ timeBytes + 1 ≤ gLogRecordLen timeBytes pad ∧
      wrapU 16 1024 = 1024 ∧ 1024 / L ≤ 1024 ∧ gEepromSize L ≤ 1024 ∧
      gEepromSize L < 2 ^ 16 ∧ gEepromSizeU 16 L = some (gEepromSize L) := by
  have hm : gEepromSize L ≤ 1024 := eepromSizeOf_le 1024 L
  refine ⟨?_, ?_, by decide, Nat.div_le_self 1024 L, hm, ?_,
    gEepromSizeU_exact (le_refl 16) hL⟩
  · unfold gLogRecordLen; omega
  · unfold gLogRecordLen; omega
  · exact Nat.lt_of_le_of_lt hm (by decide)

theorem capacity_no_wraparound_witness :
    1 ≤ 5 ∧ (gLogRecordLen 4 0 ≠ 0 ∧ 4 + 1 ≤ gLogRecordLen 4 0 ∧
      wrapU 16 1024 = 1024 ∧ 1024 / 5 ≤ 1024 ∧ gEepromSize 5 ≤ 1024 ∧
      gEepromSize 5 < 2 ^ 16 ∧ gEepromSizeU 16 5 = some (gEepromSize 5)) :=
  ⟨by decide, capacity_no_wraparound 4 0 5 (by decide)⟩

/-! ## Records -/

/-- C5: the empty record has timestamp zero and event code `LOG_EMPTY`; it is
the record built from timestamp 0 and `LOG_EMPTY`, whatever the width of
`time_t`. -/
theorem empty_record_decodes (timeBits : Nat) :
    Globals.init.gEmptyRecord.logTime = 0 ∧
      Globals.init.gEmptyRecord.logEvent = LOG_EMPTY ∧
      Globals.init.gEmptyRecord = LogRecord.make timeBits 0 LOG_EMPTY := by
  refine ⟨rfl, rfl, ?_⟩
  simp [Globals.init, LogRecord.make, wrapU, LOG_EMPTY]

/-- C6: the three event codes are pairwise distinct and each fits a byte, so
a record whose event code is `LOG_BOOT` or `LOG_RESET` differs from the empty
record, whatever its timestamp. -/
theorem empty_record_distinguishable (r : LogRecord)
    (h : r.logEvent = LOG_BOOT ∨ r.logEvent = LOG_RESET) :
    (LOG_EMPTY ≠ LOG_BOOT ∧ LOG_EMPTY ≠ LOG_RESET ∧ LOG_BOOT ≠ LOG_RESET) ∧
      (wrapU 8 LOG_EMPTY = LOG_EMPTY ∧ wrapU 8 LOG_BOOT = LOG_BOOT ∧
        wrapU 8 LOG_RESET = LOG_RESET) ∧
      r ≠ Globals.init.gEmptyRecord := by
  refine ⟨by decide, by decide, ?_⟩
  intro hr
  have he : r.logEvent = 0 := by rw [hr]; rfl
  rcases h with h | h
  · rw [he] at h; exact absurd h (by decide)
  · rw [he] at h; exact absurd h (by decide)

theorem empty_record_distinguishable_witness :
    ((LogRecord.make 32 0 LOG_BOOT).logEvent = LOG_BOOT ∨
        (LogRecord.make 32 0 LOG_BOOT).logEvent = LOG_RESET) ∧
      ((LOG_EMPTY ≠ LOG_BOOT ∧ LOG_EMPTY ≠ LOG_RESET ∧ LOG_BOOT ≠ LOG_RESET) ∧
        (wrapU 8 LOG_EMPTY = LOG_EMPTY ∧ wrapU 8 LOG_BOOT = LOG_BOOT ∧
          wrapU 8 LOG_RESET = LOG_RESET) ∧
        LogRecord.make 32 0 LOG_BOOT ≠ Globals.init.gEmptyRecord) :=
  ⟨by decide, empty_record_distinguishable (LogRecord.make 32 0 LOG_BOOT) (by decide)⟩

/-- C7: for each of the three event codes and every timestamp that a
`time_t` of `timeBits` bits can hold, building a record and reading its two
fields back gives the timestamp and the event code unchanged. -/
theorem record_roundtrip (timeBits t e : Nat) (ht : t < 2 ^ timeBits)
    (he : e = LOG_EMPTY ∨ e = LOG_BOOT ∨ e = LOG_RESET) :
    (LogRecord.make timeBits t e).logTime = t ∧
      (LogRecord.make timeBits t e).logEvent = e := by
  refine ⟨wrapU_of_lt ht, ?_⟩
  have hbyte : e < 2 ^ 8 := by
    rcases he with rfl | rfl | rfl <;> decide
  exact wrapU_of_lt hbyte

theorem record_roundtrip_witness :
    (1700000000 < 2 ^ 32 ∧ (LOG_RESET = LOG_EMPTY ∨ LOG_RESET = LOG_BOOT ∨
        LOG_RESET = LOG_RESET)) ∧
      ((LogRecord.make 32 1700000000 LOG_RESET).logTime = 1700000000 ∧
        (LogRecord.make 32 1700000000 LOG_RESET).logEvent = LOG_RESET) :=
  ⟨⟨by norm_num, by decide⟩,
    record_roundtrip 32 1700000000 LOG_RESET (by norm_num) (by decide)⟩

/-- C8, as stated, fails: the record built with event code 3 holds the byte 3,
which is none of `LOG_EMPTY`, `LOG_BOOT`, `LOG_RESET`. -/
theorem unrecognized_code_is_stored :
    (LogRecord.make 32 0 3).logEvent = 3 ∧
      ¬ ((LogRecord.make 32 0 3).logEvent = LOG_EMPTY ∨
        (LogRecord.make 32 0 3).logEvent = LOG_BOOT ∨
        (LogRecord.make 32 0 3).logEvent = LOG_RESET) := by
  decide

/-- C8, amended: building a record validates nothing; every event code that
fits a byte, recognised or not, is stored unchanged in `logEvent`. -/
theorem event_byte_stored_unchanged (timeBits t e : Nat) (he : e < 256) :
    (LogRecord.make timeBits t e).logEvent = e ∧
      (LogRecord.make timeBits t e).logEvent < 256 := by
  have h : (LogRecord.make timeBits t e).logEvent = e :=
    wrapU_of_lt (by simpa using he)
  exact ⟨h, by rw [h]; exact he⟩

theorem event_byte_stored_unchanged_witness :
    255 < 256 ∧ ((LogRecord.make 32 7 255).logEvent = 255 ∧
      (LogRecord.make 32 7 255).logEvent < 256) :=
  ⟨by decide, event_byte_stored_unchanged 32 7 255 (by decide)⟩

end TtyrstWatchdog
